import Mathlib

/-!
Verification of the `shar` SSH auth-log analyzer against its specification.

The Go sources embedded here are `entry.go` (data model: `authEntry`,
`datedAuthEntries`, `addUser`, `exists`, `print`) and the main file
(`main`, `applyDateFilter`, `applyEntryFilters`).  Parts of the repository
that the claims depend on but that are not present in the sources
(the line parser `parseSSHAttempts`, the bucket methods `filter` and
`apply`, the geolocation client `locateIP`, the `location` struct) are
modelled from the specification; each such definition says so in its doc
comment.  Machine integers are modelled as `Int`; geolocation lookups are
an abstract function `String → Option location` (an error result is
`none`); a regular-expression matcher is an abstract `String → Bool`, and
an invalid pattern — on which Go's `regexp.MustCompile` panics — is
modelled as `none`.
-/

namespace Shar

/-- Modelled from the spec: the geolocation record
`{Country, Region, City, Latitude, Longitude}` (§3).  The struct literal
is not under the given sources (the main file writes `ae.Location`, so the
entry carries a nested record).  Latitude/longitude carry no claim here,
so they are modelled as integers. -/
structure location where
  Country : String
  Region : String
  City : String
  Lat : Int
  Long : Int
deriving Repr, DecidableEq

/-- The zero value of `location` (Go's zero struct). -/
def location.zero : location := ⟨"", "", "", 0, 0⟩

/-- `authEntry` from `entry.go`: one source IP's login activity for one
day.  The main file accesses the geolocation data through a nested
`Location` field. -/
structure authEntry where
  IP : String
  Location : location
  Count : Int
  Users : List String
deriving Repr, DecidableEq

/-- `composeLocationString` from `entry.go`:
`"%s, %s, %s (%f, %f)"` over City, Region, Country, Lat, Long. -/
def location.composeLocationString (l : location) : String :=
  l.City ++ ", " ++ l.Region ++ ", " ++ l.Country ++ " (" ++
    toString l.Lat ++ ", " ++ toString l.Long ++ ")"

/-- The location string of an entry (the renderer composes it from the
entry's geolocation data). -/
def authEntry.composeLocationString (ae : authEntry) : String :=
  ae.Location.composeLocationString

/-- `addUser` from `entry.go`: increment `Count`, then scan `Users`; if
the username is already present return, otherwise append it. -/
def authEntry.addUser (ae : authEntry) (user : String) : authEntry :=
  let ae' := { ae with Count := ae.Count + 1 }
  if ae'.Users.any (fun un => un == user) then ae'
  else { ae' with Users := ae'.Users ++ [user] }

/-- `datedAuthEntries` from `entry.go`: one calendar day's bucket. -/
structure datedAuthEntries where
  Date : String
  Entries : List authEntry
deriving Repr, DecidableEq

/-- Linear scan of a bucket's entries for an IP, carrying the running
index (the loop body of `exists` in `entry.go`). -/
def findIPIdx : List authEntry → String → Nat → Nat × Bool
  | [], _, _ => (0, false)
  | ae :: rest, ip, idx =>
    if ae.IP == ip then (idx, true) else findIPIdx rest ip (idx + 1)

/-- `exists` from `entry.go`: first index of an entry with the given IP
and `true`, or `(0, false)` when absent. -/
def datedAuthEntries.existsIP (dae : datedAuthEntries) (ip : String) : Nat × Bool :=
  findIPIdx dae.Entries ip 0

/-- Modelled from the spec: the bucket method `filter` (§4.2) used by
`applyEntryFilters`; its body is not under the given sources.  "returns
the subsequence of a bucket's entries satisfying predicate, preserving
order". -/
def datedAuthEntries.filter (dae : datedAuthEntries) (pred : authEntry → Bool) :
    List authEntry :=
  dae.Entries.filter pred

/-- Modelled from the spec: the bucket method `apply` (`transform` in
§4.2) used by `applyEntryFilters`; its body is not under the given
sources.  "returns a same-length, same-order sequence where each entry
has been replaced by fn(entry)". -/
def datedAuthEntries.apply (dae : datedAuthEntries) (fn : authEntry → authEntry) :
    List authEntry :=
  dae.Entries.map fn

/-- The count-filter predicate from `applyEntryFilters`:
`ae.Count >= threshold`. -/
def countPred (threshold : Int) (ae : authEntry) : Bool :=
  decide (ae.Count ≥ threshold)

/-- The IP-filter predicate from `applyEntryFilters`: `ae.IP == address`. -/
def ipPred (address : String) (ae : authEntry) : Bool :=
  ae.IP == address

/-- The username-filter predicate from `applyEntryFilters`: scan `Users`
for an exact match. -/
def userPred (user : String) (ae : authEntry) : Bool :=
  ae.Users.any (fun name => name == user)

/-- The command-line filter parameters consumed by the pipeline
(globals `threshold`, `address`, `user`, `locale`, `date` in the main
file). -/
structure config where
  threshold : Int
  address : String
  user : String
  locale : String
  date : String
deriving Repr, DecidableEq

/-- A fresh entry for a first-seen IP: `Count = 1`, `Users = [username]`
(§4.1; Go zero value for the location). -/
def newAuthEntry (ip user : String) : authEntry :=
  { IP := ip, Location := location.zero, Count := 1, Users := [user] }

/-- Modelled from the spec: the within-bucket update of the line parser
(`parseSSHAttempts` is not under the given sources).  Linear search by
IP, first match wins (the scan of `exists` in `entry.go`); if found,
`addUser` from `entry.go`; if not found, append a fresh entry with
`Count = 1` at the end of the bucket. -/
def addAttempt : List authEntry → String → String → List authEntry
  | [], ip, user => [newAuthEntry ip user]
  | ae :: rest, ip, user =>
    if ae.IP == ip then ae.addUser user :: rest
    else ae :: addAttempt rest ip user

/-- Modelled from the spec: one recognized attempt line applied to the
store (§4.1): locate the bucket for the date (first match) or append a
new bucket at the end of the store, then update that bucket's entries. -/
def processAttempt : List datedAuthEntries → String → String → String → List datedAuthEntries
  | [], d, ip, user => [⟨d, [newAuthEntry ip user]⟩]
  | b :: rest, d, ip, user =>
    if b.Date == d then ⟨b.Date, addAttempt b.Entries ip user⟩ :: rest
    else b :: processAttempt rest d ip user

/-- Modelled from the spec: the parse pass over the recognized attempt
lines (date, IP, username triples) of a log, starting from the empty
store; unrecognized lines are no-ops and are already absent here. -/
def parseSSHAttempts (lines : List (String × String × String)) : List datedAuthEntries :=
  lines.foldl (fun s l => processAttempt s l.1 l.2.1 l.2.2) []

/-- Total `Count` recorded in a list of entries for a given IP. -/
def countForEntries : List authEntry → String → Int
  | [], _ => 0
  | ae :: rest, ip => (if ae.IP == ip then ae.Count else 0) + countForEntries rest ip

/-- Total `Count` recorded in the store for a given date and IP. -/
def countFor : List datedAuthEntries → String → String → Int
  | [], _, _ => 0
  | b :: rest, d, ip =>
    (if b.Date == d then countForEntries b.Entries ip else 0) + countFor rest d ip

/-- The per-bucket IP-uniqueness invariant (§3). -/
def bucketIPsUnique (b : datedAuthEntries) : Prop :=
  (b.Entries.map (·.IP)).Nodup

/-- IP uniqueness within every date bucket of the store. -/
def storeIPsUnique (s : List datedAuthEntries) : Prop :=
  ∀ b ∈ s, bucketIPsUnique b

/-- The count/IP/user filter sequence of `applyEntryFilters` for one
bucket (the three guarded `filter` blocks before the geolocation step),
each assigning the filtered entries back to the bucket. -/
def filterBucketPre (cfg : config) (b : datedAuthEntries) : datedAuthEntries :=
  let b1 := if cfg.threshold > 0 then
    { b with Entries := b.filter (countPred cfg.threshold) } else b
  let b2 := if cfg.address ≠ "" then
    { b1 with Entries := b1.filter (ipPred cfg.address) } else b1
  if cfg.user ≠ "" then { b2 with Entries := b2.filter (userPred cfg.user) } else b2

/-- Modelled from the spec: the geolocation client `locateIP` (§4.3) is
not under the given sources; it is an abstract lookup
`String → Option location` where `none` models an error result, for
which the value handed back is the zero-value `location`. -/
def locateResult (locate : String → Option location) (ip : String) : location :=
  (locate ip).getD location.zero

/-- The geolocation block of `applyEntryFilters`: `apply` over the
bucket's entries, setting each entry's `Location` from the lookup.
Also returned: the IPs requested (every entry then present, in order)
and the IPs whose lookup failed, each logged as an error. -/
def geoStep (locate : String → Option location) (b : datedAuthEntries) :
    datedAuthEntries × List String × List String :=
  (⟨b.Date, b.apply (fun ae => { ae with Location := locateResult locate ae.IP })⟩,
   b.Entries.map (·.IP),
   (b.Entries.filter (fun ae => (locate ae.IP).isNone)).map (·.IP))

/-- A filter whose predicate may panic: elements are tested left to
right and the first panic propagates (the loop of the bucket `filter`
method with a panicking predicate). -/
def filterPanic (pred : authEntry → Except Unit Bool) :
    List authEntry → Except Unit (List authEntry)
  | [] => .ok []
  | ae :: rest => do
    let keep ← pred ae
    let tail ← filterPanic pred rest
    pure (if keep then ae :: tail else tail)

/-- The location-filter predicate of `applyEntryFilters`: each call
compiles the pattern with `regexp.MustCompile` — a panic (`rx = none`
models an invalid pattern) — then matches it against the entry's
composed location string. -/
def localePred (rx : Option (String → Bool)) (ae : authEntry) : Except Unit Bool :=
  match rx with
  | none => .error ()
  | some m => .ok (m ae.Location.composeLocationString)

/-- The location-filter block of `applyEntryFilters` (runs only when a
locale was supplied). -/
def locationFilterStep (locale : String) (rx : Option (String → Bool))
    (b : datedAuthEntries) : Except Unit datedAuthEntries :=
  if locale ≠ "" then
    match filterPanic (localePred rx) b.Entries with
    | .error e => .error e
    | .ok es => .ok ⟨b.Date, es⟩
  else .ok b

/-- The body of `applyEntryFilters` for one bucket: count, IP, and user
filters, then the unconditional geolocation step, then the location
filter.  Besides the final bucket it reports the geolocation requests
made and the lookup errors logged; a panic from an invalid location
pattern is `Except.error`. -/
def filterBucket (cfg : config) (locate : String → Option location)
    (rx : Option (String → Bool)) (b : datedAuthEntries) :
    Except Unit (datedAuthEntries × List String × List String) :=
  let b1 := filterBucketPre cfg b
  let r := geoStep locate b1
  match locationFilterStep cfg.locale rx r.1 with
  | .error e => .error e
  | .ok b3 => .ok (b3, r.2.1, r.2.2)

/-- `applyEntryFilters`: process every bucket in store order; a panic
stops the run.  Returns the final store together with all geolocation
requests and logged lookup errors, in order. -/
def applyEntryFilters (cfg : config) (locate : String → Option location)
    (rx : Option (String → Bool)) :
    List datedAuthEntries → Except Unit (List datedAuthEntries × List String × List String)
  | [] => .ok ([], [], [])
  | b :: rest =>
    match filterBucket cfg locate rx b with
    | .error e => .error e
    | .ok r =>
      match applyEntryFilters cfg locate rx rest with
      | .error e => .error e
      | .ok rs => .ok (r.1 :: rs.1, r.2.1 ++ rs.2.1, r.2.2 ++ rs.2.2)

/-- `applyDateFilter` from the main file: scan the store for the first
bucket whose `Date` equals the filter string; return it as a singleton
slice, or `none` (Go `nil`) when no date matches. -/
def applyDateFilter (date : String) : List datedAuthEntries → Option (List datedAuthEntries)
  | [] => none
  | day :: rest => if day.Date == date then some [day] else applyDateFilter date rest

/-- Outcome of the filter phase of `main`: early return with the
not-found message, a panic, or the filtered store with the geolocation
requests and logged errors. -/
inductive runResult where
  | notFound
  | panicked
  | done (store : List datedAuthEntries) (lookups : List String) (logged : List String)
deriving Repr, DecidableEq

/-- The filter phase of `main`: when a date filter is supplied, apply it
first and return early (reporting not-found) if it yields `nil`;
otherwise run `applyEntryFilters` on the store that remains. -/
def runFilters (cfg : config) (locate : String → Option location)
    (rx : Option (String → Bool)) (attempts : List datedAuthEntries) : runResult :=
  let entryPhase (a : List datedAuthEntries) : runResult :=
    match applyEntryFilters cfg locate rx a with
    | .error _ => .panicked
    | .ok r => .done r.1 r.2.1 r.2.2
  if cfg.date ≠ "" then
    match applyDateFilter cfg.date attempts with
    | none => .notFound
    | some a => entryPhase a
  else entryPhase attempts

/-- One unit of renderer output (color escapes omitted). -/
inductive outLine where
  | dateHeader (date : String)
  | ipLine (ip : String)
  | locationLine (loc : String)
  | attemptsLine (count : Int)
  | usernamesLine (users : String)
  | blank
deriving Repr, DecidableEq

/-- The inner loop body of `print` in `entry.go`: an entry prints its
IP, location string, count, and comma-joined usernames only when
`Count >= threshold`. -/
def printEntry (threshold : Int) (ae : authEntry) : List outLine :=
  if ae.Count ≥ threshold then
    [.ipLine ae.IP, .locationLine ae.composeLocationString,
     .attemptsLine ae.Count, .usernamesLine (String.intercalate ", " ae.Users)]
  else []

/-- The per-bucket body of `print`: the date header, then the entries
passing the threshold check, then the trailing empty line. -/
def printBucket (threshold : Int) (dae : datedAuthEntries) : List outLine :=
  outLine.dateHeader dae.Date ::
    ((dae.Entries.map (printEntry threshold)).flatten ++ [.blank])

/-- `print` from `entry.go` as the sequence of output units it
produces, bucket by bucket in store order. -/
def print (threshold : Int) (store : List datedAuthEntries) : List outLine :=
  (store.map (printBucket threshold)).flatten

end Shar

namespace Shar

/- ### Claim C5: addUser never duplicates usernames -/

/-- C5: `addUser` always increments `Count` by exactly 1 and never
touches `IP` or `Location`; when the username is already in `Users` the
list is unchanged, otherwise the username is appended at the end; in
particular a duplicate-free `Users` list stays duplicate-free. -/
theorem addUser_spec (ae : authEntry) (u : String) :
    (ae.addUser u).Count = ae.Count + 1 ∧
    (ae.addUser u).IP = ae.IP ∧
    (ae.addUser u).Location = ae.Location ∧
    (u ∈ ae.Users → (ae.addUser u).Users = ae.Users) ∧
    (u ∉ ae.Users → (ae.addUser u).Users = ae.Users ++ [u]) ∧
    (ae.Users.Nodup → (ae.addUser u).Users.Nodup) := by
  unfold authEntry.addUser
  by_cases h : u ∈ ae.Users
  · have hb : ae.Users.any (fun un => un == u) = true := by
      simpa using h
    simp [hb, h]
  · have hb : ae.Users.any (fun un => un == u) = false := by
      simp
      intro x hx hxu
      exact h (hxu ▸ hx)
    simp [hb, h]
    intro hnd
    exact List.Nodup.append hnd (List.nodup_singleton u) (by
      simp [List.disjoint_singleton]
      exact h)

/-- Witness for C5 at a concrete entry: adding a user already present
keeps `Users` unchanged while the count increments. -/
theorem addUser_spec_witness :
    (authEntry.addUser ⟨"10.0.0.1", location.zero, 2, ["root", "admin"]⟩ "root").Users
      = ["root", "admin"] ∧
    (authEntry.addUser ⟨"10.0.0.1", location.zero, 2, ["root", "admin"]⟩ "root").Count = 3 := by
  have h := addUser_spec ⟨"10.0.0.1", location.zero, 2, ["root", "admin"]⟩ "root"
  exact ⟨h.2.2.2.1 (by decide), h.1⟩

/- ### Claim C6: count/IP/user filters commute on entry membership -/

/-- C6: the count, IP, and user filters of `applyEntryFilters` are
independent per-entry predicates, so applying the IP filter before the
count-threshold filter yields exactly the same surviving entries as the
reverse order, and likewise for the other pairs. -/
theorem entry_filters_commute (threshold : Int) (address user : String)
    (b : datedAuthEntries) :
    datedAuthEntries.filter ⟨b.Date, b.filter (countPred threshold)⟩ (ipPred address)
      = datedAuthEntries.filter ⟨b.Date, b.filter (ipPred address)⟩ (countPred threshold) ∧
    datedAuthEntries.filter ⟨b.Date, b.filter (countPred threshold)⟩ (userPred user)
      = datedAuthEntries.filter ⟨b.Date, b.filter (userPred user)⟩ (countPred threshold) ∧
    datedAuthEntries.filter ⟨b.Date, b.filter (ipPred address)⟩ (userPred user)
      = datedAuthEntries.filter ⟨b.Date, b.filter (userPred user)⟩ (ipPred address) := by
  unfold datedAuthEntries.filter
  refine ⟨?_, ?_, ?_⟩ <;>
    simp [List.filter_filter] <;>
    exact List.filter_congr (fun x _ => by rw [Bool.and_comm])

/- ### Claim C1: parse pass — one count increment per line, unique IPs -/

theorem addUser_IP (ae : authEntry) (u : String) : (ae.addUser u).IP = ae.IP := by
  unfold authEntry.addUser
  by_cases h : ae.Users.any (fun un => un == u) <;> simp [h]

theorem addUser_Count (ae : authEntry) (u : String) :
    (ae.addUser u).Count = ae.Count + 1 := by
  unfold authEntry.addUser
  by_cases h : ae.Users.any (fun un => un == u) <;> simp [h]

theorem mem_addAttempt_ips (es : List authEntry) (ip u x : String)
    (h : x ∈ (addAttempt es ip u).map (·.IP)) : x ∈ es.map (·.IP) ∨ x = ip := by
  induction es with
  | nil =>
    right
    simpa [addAttempt, newAuthEntry] using h
  | cons ae rest ih =>
    by_cases hc : ae.IP == ip
    · simp only [addAttempt, hc, if_pos, List.map_cons, addUser_IP] at h
      left
      simpa using h
    · simp only [addAttempt, hc, Bool.false_eq_true, if_neg, not_false_iff,
        List.map_cons, List.mem_cons] at h
      rcases h with h | h
      · left; simp [h]
      · rcases ih h with h' | h'
        · left; simp [h']
        · right; exact h'

theorem addAttempt_nodup (es : List authEntry) (ip u : String)
    (h : (es.map (·.IP)).Nodup) : ((addAttempt es ip u).map (·.IP)).Nodup := by
  induction es with
  | nil => simp [addAttempt, newAuthEntry]
  | cons ae rest ih =>
    rw [List.map_cons, List.nodup_cons] at h
    by_cases hc : ae.IP == ip
    · simp only [addAttempt, hc, if_pos, List.map_cons, addUser_IP, List.nodup_cons]
      exact h
    · simp only [addAttempt, hc, Bool.false_eq_true, if_neg, not_false_iff,
        List.map_cons, List.nodup_cons]
      refine ⟨?_, ih h.2⟩
      intro hmem
      rcases mem_addAttempt_ips rest ip u ae.IP hmem with h' | h'
      · exact h.1 h'
      · exact absurd h' (by simpa using hc)

theorem countForEntries_addAttempt (es : List authEntry) (ip u ip' : String) :
    countForEntries (addAttempt es ip u) ip' =
      countForEntries es ip' + (if ip' = ip then 1 else 0) := by
  induction es with
  | nil =>
    simp only [addAttempt, newAuthEntry, countForEntries]
    by_cases h : ip' = ip
    · simp [h]
    · have hf : (ip == ip') = false := by
        simp
        exact fun hh => h hh.symm
      simp [hf, h]
  | cons ae rest ih =>
    by_cases hc : ae.IP == ip
    · have hcd : ae.IP = ip := by simpa using hc
      simp only [addAttempt, hc, if_pos, countForEntries, addUser_IP, addUser_Count]
      by_cases h : ip' = ip
      · simp only [hcd, h, beq_self_eq_true, if_pos]
        omega
      · have : (ae.IP == ip') = false := by
          simp [hcd]
          exact fun hh => h hh.symm
        simp [this, h]
    · simp only [addAttempt, hc, Bool.false_eq_true, if_neg, not_false_iff, countForEntries, ih]
      omega

theorem countFor_processAttempt (s : List datedAuthEntries) (d ip u d' ip' : String) :
    countFor (processAttempt s d ip u) d' ip' =
      countFor s d' ip' + (if d' = d ∧ ip' = ip then 1 else 0) := by
  induction s with
  | nil =>
    simp only [processAttempt, countFor, countForEntries, newAuthEntry]
    by_cases hd : d' = d
    · subst hd
      simp only [beq_self_eq_true, if_pos, true_and]
      by_cases h : ip' = ip
      · simp [h]
      · have hf : (ip == ip') = false := by
          simp
          exact fun hh => h hh.symm
        simp [hf, h]
    · have : (d == d') = false := by
        simp
        exact fun hh => hd hh.symm
      simp [this, hd]
  | cons b rest ih =>
    simp only [processAttempt]
    by_cases hb : b.Date == d
    · have hbd : b.Date = d := by simpa using hb
      rw [if_pos hb]
      simp only [countFor]
      by_cases hd : b.Date == d'
      · have hd' : d' = d := by
          have h1 : b.Date = d' := by simpa using hd
          rw [← h1, hbd]
        rw [if_pos hd, if_pos hd, countForEntries_addAttempt]
        by_cases hip : ip' = ip
        · simp only [hd', hip, and_self, if_pos]
          omega
        · simp only [hip, and_false, if_neg, not_false_iff]
          omega
      · have hne : ¬(d' = d ∧ ip' = ip) := by
          rintro ⟨he, -⟩
          exact absurd (by simp [hbd, he] : (b.Date == d') = true) (by simpa using hd)
        rw [if_neg hd, if_neg hd, if_neg hne]
        omega
    · rw [if_neg hb]
      simp only [countFor, ih]
      omega

theorem processAttempt_unique (s : List datedAuthEntries) (d ip u : String)
    (h : storeIPsUnique s) : storeIPsUnique (processAttempt s d ip u) := by
  induction s with
  | nil =>
    intro b hb
    simp only [processAttempt, List.mem_singleton] at hb
    subst hb
    simp [bucketIPsUnique, newAuthEntry]
  | cons b0 rest ih =>
    simp only [processAttempt]
    by_cases hb : b0.Date == d
    · rw [if_pos hb]
      intro b hbm
      rcases List.mem_cons.mp hbm with rfl | hm
      · have h0 : bucketIPsUnique b0 := h b0 (List.mem_cons_self _ _)
        simp only [bucketIPsUnique] at h0 ⊢
        exact addAttempt_nodup _ _ _ h0
      · exact h b (List.mem_cons_of_mem _ hm)
    · rw [if_neg hb]
      intro b hbm
      rcases List.mem_cons.mp hbm with rfl | hm
      · exact h b (List.mem_cons_self _ _)
      · exact ih (fun x hx => h x (List.mem_cons_of_mem _ hx)) b hm

theorem parse_foldl_unique (lines : List (String × String × String))
    (s : List datedAuthEntries) (h : storeIPsUnique s) :
    storeIPsUnique (lines.foldl (fun s l => processAttempt s l.1 l.2.1 l.2.2) s) := by
  induction lines generalizing s with
  | nil => exact h
  | cons l rest ih => exact ih _ (processAttempt_unique _ _ _ _ h)

/-- C1: each recognized attempt line applied to the store increments the
recorded count of exactly one (date, IP) — the line's own — by exactly 1
and leaves every other (date, IP) count unchanged; the per-bucket IP
uniqueness invariant is preserved by every such step and therefore holds
at every point of a parse pass started from the empty store. -/
theorem parse_increments_once_and_ips_unique
    (s : List datedAuthEntries) (d ip user d' ip' : String)
    (lines : List (String × String × String)) :
    countFor (processAttempt s d ip user) d' ip' =
      countFor s d' ip' + (if d' = d ∧ ip' = ip then 1 else 0) ∧
    (storeIPsUnique s → storeIPsUnique (processAttempt s d ip user)) ∧
    storeIPsUnique (parseSSHAttempts lines) :=
  ⟨countFor_processAttempt s d ip user d' ip',
   processAttempt_unique s d ip user,
   parse_foldl_unique lines [] (fun b hb => absurd hb (List.not_mem_nil b))⟩

/-- Witness for C1 at a concrete store: the IP-uniqueness hypothesis is
discharged at the empty store. -/
theorem parse_increments_once_and_ips_unique_witness :
    storeIPsUnique (processAttempt [] "Jan 1" "10.0.0.1" "root") :=
  (parse_increments_once_and_ips_unique [] "Jan 1" "10.0.0.1" "root" "Jan 1" "10.0.0.1"
    []).2.1 (fun b hb => absurd hb (List.not_mem_nil b))

/- ### Claim C2: date filter — exact match kept, not-found ends the run -/

theorem applyDateFilter_none (date : String) (attempts : List datedAuthEntries)
    (h : ∀ b ∈ attempts, b.Date ≠ date) : applyDateFilter date attempts = none := by
  induction attempts with
  | nil => rfl
  | cons day rest ih =>
    have hd : (day.Date == date) = false := by
      simpa using h day (List.mem_cons_self _ _)
    simp only [applyDateFilter]
    rw [if_neg (by simp [hd])]
    exact ih (fun b hb => h b (List.mem_cons_of_mem _ hb))

theorem applyDateFilter_find (date : String) (attempts : List datedAuthEntries)
    (b : datedAuthEntries)
    (h : attempts.find? (fun x => x.Date == date) = some b) :
    applyDateFilter date attempts = some [b] := by
  induction attempts with
  | nil => simp [List.find?] at h
  | cons day rest ih =>
    by_cases hd : day.Date == date
    · simp only [List.find?, hd] at h
      cases h
      simp only [applyDateFilter]
      rw [if_pos hd]
    · have hdf : (day.Date == date) = false := by simpa using hd
      simp only [List.find?, hdf] at h
      simp only [applyDateFilter]
      rw [if_neg (by simp [hdf])]
      exact ih h

/-- C2: with a date filter supplied, the kept store is exactly the
singleton of the first bucket whose `Date` equals the filter string under
plain string equality; when no bucket's `Date` equals it,
`applyDateFilter` yields `nil` and the run ends with the not-found
outcome before any entry filtering (count/IP/user/geolocation/location)
executes. -/
theorem date_filter_spec (cfg : config) (locate : String → Option location)
    (rx : Option (String → Bool)) (attempts : List datedAuthEntries)
    (hdate : cfg.date ≠ "") :
    ((∀ b ∈ attempts, b.Date ≠ cfg.date) →
      applyDateFilter cfg.date attempts = none ∧
      runFilters cfg locate rx attempts = runResult.notFound) ∧
    (∀ b, attempts.find? (fun x => x.Date == cfg.date) = some b →
      applyDateFilter cfg.date attempts = some [b]) := by
  constructor
  · intro h
    have h1 := applyDateFilter_none cfg.date attempts h
    refine ⟨h1, ?_⟩
    simp [runFilters, hdate, h1]
  · intro b hb
    exact applyDateFilter_find cfg.date attempts b hb

/-- Witness for C2: a two-bucket store; a date filter for an absent date
ends the run early, and a date filter for "Jan 1" keeps exactly that
bucket. -/
theorem date_filter_spec_witness :
    (applyDateFilter "Jan 3" [⟨"Jan 1", []⟩, ⟨"Jan 2", []⟩] = none ∧
      runFilters ⟨0, "", "", "", "Jan 3"⟩ (fun _ => none) none
        [⟨"Jan 1", []⟩, ⟨"Jan 2", []⟩] = runResult.notFound) ∧
    applyDateFilter "Jan 1" [⟨"Jan 1", []⟩, ⟨"Jan 2", []⟩] = some [⟨"Jan 1", []⟩] := by
  have h1 := date_filter_spec ⟨0, "", "", "", "Jan 3"⟩ (fun _ => none) none
    [⟨"Jan 1", []⟩, ⟨"Jan 2", []⟩] (by decide)
  have h2 := date_filter_spec ⟨0, "", "", "", "Jan 1"⟩ (fun _ => none) none
    [⟨"Jan 1", []⟩, ⟨"Jan 2", []⟩] (by decide)
  exact ⟨h1.1 (by decide), h2.2 ⟨"Jan 1", []⟩ (by rfl)⟩

/- ### Pipeline characterization without a location filter -/

theorem locationFilterStep_no_locale (rx : Option (String → Bool)) (b : datedAuthEntries) :
    locationFilterStep "" rx b = .ok b := by
  simp [locationFilterStep]

theorem filterBucket_no_locale (cfg : config) (locate : String → Option location)
    (rx : Option (String → Bool)) (b : datedAuthEntries) (h : cfg.locale = "") :
    filterBucket cfg locate rx b = .ok (geoStep locate (filterBucketPre cfg b)) := by
  simp [filterBucket, h, locationFilterStep_no_locale]

theorem applyEntryFilters_no_locale (cfg : config) (locate : String → Option location)
    (rx : Option (String → Bool)) (dae : List datedAuthEntries) (h : cfg.locale = "") :
    applyEntryFilters cfg locate rx dae =
      .ok (dae.map (fun b => (geoStep locate (filterBucketPre cfg b)).1),
           (dae.map (fun b => (filterBucketPre cfg b).Entries.map (·.IP))).flatten,
           (dae.map (fun b => ((filterBucketPre cfg b).Entries.filter
              (fun ae => (locate ae.IP).isNone)).map (·.IP))).flatten) := by
  induction dae with
  | nil => simp [applyEntryFilters]
  | cons b rest ih =>
    simp only [applyEntryFilters, filterBucket_no_locale cfg locate rx b h,
      ih, List.map_cons, List.flatten_cons]
    rfl

theorem geoStep_ips (locate : String → Option location) (b : datedAuthEntries) :
    (geoStep locate b).1.Entries.map (·.IP) = b.Entries.map (·.IP) := by
  simp [geoStep, datedAuthEntries.apply, List.map_map]

/- ### Claim C3: geolocation is resolved for every surviving entry -/

/-- C3: with no location filter supplied, the pipeline still issues one
geolocation request per entry that survives the count/IP/user filters:
the request list is exactly the survivors' IPs, bucket by bucket in
order, and the surviving entries of the result are exactly those
survivors (same IPs, same order). -/
theorem geolocation_unconditional (cfg : config) (locate : String → Option location)
    (rx : Option (String → Bool)) (dae : List datedAuthEntries) (h : cfg.locale = "") :
    ∃ s lg, applyEntryFilters cfg locate rx dae =
        .ok (s, (dae.map (fun b => (filterBucketPre cfg b).Entries.map (·.IP))).flatten, lg) ∧
      s.map (fun b => b.Entries.map (·.IP)) =
        dae.map (fun b => (filterBucketPre cfg b).Entries.map (·.IP)) := by
  refine ⟨_, _, applyEntryFilters_no_locale cfg locate rx dae h, ?_⟩
  rw [List.map_map]
  exact List.map_congr_left (fun b _ => geoStep_ips locate (filterBucketPre cfg b))

/-- Witness for C3: one bucket, no filters at all; the single entry
survives and its IP is looked up. -/
theorem geolocation_unconditional_witness :
    ∃ s lg, applyEntryFilters ⟨0, "", "", "", ""⟩ (fun _ => none) none
        [⟨"Jan 1", [newAuthEntry "10.0.0.1" "root"]⟩] =
        .ok (s, ([⟨"Jan 1", [newAuthEntry "10.0.0.1" "root"]⟩].map
          (fun b => (filterBucketPre ⟨0, "", "", "", ""⟩ b).Entries.map (·.IP))).flatten, lg) ∧
      s.map (fun b => b.Entries.map (·.IP)) =
        [⟨"Jan 1", [newAuthEntry "10.0.0.1" "root"]⟩].map
          (fun b => (filterBucketPre ⟨0, "", "", "", ""⟩ b).Entries.map (·.IP)) :=
  geolocation_unconditional ⟨0, "", "", "", ""⟩ (fun _ => none) none
    [⟨"Jan 1", [newAuthEntry "10.0.0.1" "root"]⟩] rfl

/- ### Claim C4: the zero/empty configuration is the identity up to Location -/

/-- C4: running the filter phase with threshold 0 and every other
criterion empty keeps every bucket and every entry — same dates, same
IPs, counts and user lists, in the same order — changing only each
entry's `Location`, which the unconditional geolocation step populates
from the lookup. -/
theorem pipeline_identity_at_zero (locate : String → Option location)
    (rx : Option (String → Bool)) (dae : List datedAuthEntries) :
    runFilters ⟨0, "", "", "", ""⟩ locate rx dae =
      runResult.done
        (dae.map (fun b => ⟨b.Date, b.Entries.map
          (fun ae => { ae with Location := locateResult locate ae.IP })⟩))
        ((dae.map (fun b => b.Entries.map (·.IP))).flatten)
        ((dae.map (fun b => (b.Entries.filter
          (fun ae => (locate ae.IP).isNone)).map (·.IP))).flatten) := by
  have hpre : ∀ b, filterBucketPre ⟨0, "", "", "", ""⟩ b = b := by
    intro b
    simp [filterBucketPre]
  have h := applyEntryFilters_no_locale ⟨0, "", "", "", ""⟩ locate rx dae rfl
  simp only [hpre] at h
  simp only [runFilters]
  rw [if_neg (by simp)]
  rw [h]
  simp [geoStep, datedAuthEntries.apply]

/- ### Claim C7: buckets are never removed, dates never change -/

theorem filterBucketPre_Date (cfg : config) (b : datedAuthEntries) :
    (filterBucketPre cfg b).Date = b.Date := by
  unfold filterBucketPre
  by_cases h1 : cfg.threshold > 0 <;> by_cases h2 : cfg.address ≠ "" <;>
    by_cases h3 : cfg.user ≠ "" <;> simp [h1, h2, h3]

theorem locationFilterStep_Date (locale : String) (rx : Option (String → Bool))
    (b b' : datedAuthEntries) (h : locationFilterStep locale rx b = .ok b') :
    b'.Date = b.Date := by
  unfold locationFilterStep at h
  by_cases hl : locale ≠ ""
  · rw [if_pos hl] at h
    cases hfp : filterPanic (localePred rx) b.Entries with
    | error e => rw [hfp] at h; cases h
    | ok es =>
      rw [hfp] at h
      injection h with h'
      rw [← h']
  · rw [if_neg hl] at h
    injection h with h'
    rw [← h']

theorem filterBucket_Date (cfg : config) (locate : String → Option location)
    (rx : Option (String → Bool)) (b : datedAuthEntries)
    (r : datedAuthEntries × List String × List String)
    (h : filterBucket cfg locate rx b = .ok r) : r.1.Date = b.Date := by
  simp only [filterBucket] at h
  cases hls : locationFilterStep cfg.locale rx (geoStep locate (filterBucketPre cfg b)).1 with
  | error e => rw [hls] at h; cases h
  | ok b3 =>
    rw [hls] at h
    injection h with h'
    rw [← h']
    have h1 := locationFilterStep_Date _ _ _ _ hls
    have h2 : (geoStep locate (filterBucketPre cfg b)).1.Date = (filterBucketPre cfg b).Date := rfl
    rw [h1, h2, filterBucketPre_Date]

/-- C7: `applyEntryFilters` never removes a bucket and never changes a
bucket's `Date`: any non-panicking run yields a store with exactly the
same date sequence, bucket for bucket — a bucket whose entries are all
filtered away survives as an empty bucket; only `Entries` change. -/
theorem buckets_preserved (cfg : config) (locate : String → Option location)
    (rx : Option (String → Bool)) (dae : List datedAuthEntries)
    (r : List datedAuthEntries × List String × List String)
    (h : applyEntryFilters cfg locate rx dae = .ok r) :
    r.1.map (·.Date) = dae.map (·.Date) ∧ r.1.length = dae.length := by
  suffices hm : r.1.map (·.Date) = dae.map (·.Date) by
    refine ⟨hm, ?_⟩
    have := congrArg List.length hm
    simpa using this
  induction dae generalizing r with
  | nil =>
    simp only [applyEntryFilters] at h
    injection h with h'
    rw [← h']
  | cons b rest ih =>
    simp only [applyEntryFilters] at h
    cases hfb : filterBucket cfg locate rx b with
    | error e => rw [hfb] at h; cases h
    | ok rb =>
      rw [hfb] at h
      cases hrest : applyEntryFilters cfg locate rx rest with
      | error e => rw [hrest] at h; cases h
      | ok rs =>
        rw [hrest] at h
        injection h with h'
        rw [← h']
        simp only [List.map_cons]
        rw [filterBucket_Date cfg locate rx b rb hfb, ih rs hrest]

/-- Witness for C7: an IP filter that matches nothing empties the only
bucket, yet the bucket survives with its date. -/
theorem buckets_preserved_witness :
    ([⟨"Jan 1", []⟩] : List datedAuthEntries).map (·.Date) =
      ([⟨"Jan 1", [newAuthEntry "10.0.0.1" "root"]⟩] : List datedAuthEntries).map (·.Date) :=
  (buckets_preserved ⟨0, "9.9.9.9", "", "", ""⟩ (fun _ => none) none
    [⟨"Jan 1", [newAuthEntry "10.0.0.1" "root"]⟩]
    ([⟨"Jan 1", []⟩], [], []) (by rfl)).1

/- ### Claim C8: a failed lookup is logged, the entry kept, the run goes on -/

/-- C8: for an entry whose geolocation lookup fails, the geolocation
step logs its IP among the lookup errors, keeps the entry — with the
zero-value (unresolved) location — in a bucket of unchanged length, and
such a failure never aborts the run: with no location filter,
`applyEntryFilters` returns `.ok` whatever the lookup function does. -/
theorem lookup_failure_kept (locate : String → Option location) (b : datedAuthEntries)
    (ae : authEntry) (h1 : ae ∈ b.Entries) (h2 : locate ae.IP = none) :
    ae.IP ∈ (geoStep locate b).2.2 ∧
    { ae with Location := location.zero } ∈ (geoStep locate b).1.Entries ∧
    (geoStep locate b).1.Entries.length = b.Entries.length ∧
    (∀ cfg rx dae, cfg.locale = "" →
      ∃ r, applyEntryFilters cfg locate rx dae = Except.ok r) := by
  refine ⟨?_, ?_, ?_, ?_⟩
  · simp only [geoStep]
    exact List.mem_map_of_mem _ (List.mem_filter.mpr ⟨h1, by simp [h2]⟩)
  · simp only [geoStep, datedAuthEntries.apply]
    have hm := List.mem_map_of_mem
      (fun ae => { ae with Location := locateResult locate ae.IP }) h1
    simpa [locateResult, h2] using hm
  · simp [geoStep, datedAuthEntries.apply]
  · intro cfg rx dae hl
    exact ⟨_, applyEntryFilters_no_locale cfg locate rx dae hl⟩

/-- Witness for C8: a lookup that always fails logs the entry's IP and
keeps the entry with the zero-value location. -/
theorem lookup_failure_kept_witness :
    "10.0.0.1" ∈ (geoStep (fun _ => none) ⟨"Jan 1", [newAuthEntry "10.0.0.1" "root"]⟩).2.2 ∧
    { newAuthEntry "10.0.0.1" "root" with Location := location.zero } ∈
      (geoStep (fun _ => none) ⟨"Jan 1", [newAuthEntry "10.0.0.1" "root"]⟩).1.Entries := by
  have h := lookup_failure_kept (fun _ => none) ⟨"Jan 1", [newAuthEntry "10.0.0.1" "root"]⟩
    (newAuthEntry "10.0.0.1" "root") (List.mem_singleton_self _) rfl
  exact ⟨h.1, h.2.1⟩

/- ### Claim C10: invalid location pattern panics iff an entry reaches it -/

theorem filterBucket_invalid_empty (cfg : config) (locate : String → Option location)
    (b : datedAuthEntries) (hl : cfg.locale ≠ "")
    (he : (filterBucketPre cfg b).Entries = []) :
    filterBucket cfg locate none b = .ok (⟨(filterBucketPre cfg b).Date, []⟩, [], []) := by
  simp only [filterBucket, geoStep, datedAuthEntries.apply, he, List.map_nil,
    locationFilterStep]
  rw [if_pos hl]
  rfl

theorem filterBucket_invalid_nonempty (cfg : config) (locate : String → Option location)
    (b : datedAuthEntries) (hl : cfg.locale ≠ "")
    (he : (filterBucketPre cfg b).Entries ≠ []) :
    filterBucket cfg locate none b = .error () := by
  obtain ⟨x, xs, hxx⟩ := List.exists_cons_of_ne_nil he
  simp only [filterBucket, geoStep, datedAuthEntries.apply, hxx, List.map_cons,
    locationFilterStep]
  rw [if_pos hl]
  rfl

theorem applyEntryFilters_invalid_error (cfg : config) (locate : String → Option location)
    (hl : cfg.locale ≠ "") (dae : List datedAuthEntries)
    (hex : ∃ b ∈ dae, (filterBucketPre cfg b).Entries ≠ []) :
    applyEntryFilters cfg locate none dae = .error () := by
  induction dae with
  | nil => obtain ⟨b, hb, -⟩ := hex; cases hb
  | cons b rest ih =>
    obtain ⟨b0, hb0, hne⟩ := hex
    by_cases hbe : (filterBucketPre cfg b).Entries = []
    · have hb0r : b0 ∈ rest := by
        rcases List.mem_cons.mp hb0 with rfl | hm
        · exact absurd hbe hne
        · exact hm
      simp only [applyEntryFilters, filterBucket_invalid_empty cfg locate b hl hbe,
        ih ⟨b0, hb0r, hne⟩]
    · simp only [applyEntryFilters, filterBucket_invalid_nonempty cfg locate b hl hbe]

theorem applyEntryFilters_invalid_ok (cfg : config) (locate : String → Option location)
    (hl : cfg.locale ≠ "") (dae : List datedAuthEntries)
    (hall : ∀ b ∈ dae, (filterBucketPre cfg b).Entries = []) :
    ∃ r, applyEntryFilters cfg locate none dae = .ok r := by
  induction dae with
  | nil => exact ⟨_, rfl⟩
  | cons b rest ih =>
    obtain ⟨r, hr⟩ := ih (fun x hx => hall x (List.mem_cons_of_mem _ hx))
    refine ⟨(⟨(filterBucketPre cfg b).Date, []⟩ :: r.1, r.2.1, r.2.2), ?_⟩
    simp only [applyEntryFilters,
      filterBucket_invalid_empty cfg locate b hl (hall b (List.mem_cons_self _ _)), hr,
      List.nil_append]

/-- C10: with a location filter supplied and an invalid pattern
(`rx = none`: `regexp.MustCompile` is called inside the per-entry
predicate and panics), the run panics exactly when at least one entry
survives the count/IP/user filters: one surviving entry in any bucket
makes `applyEntryFilters` stop with the panic, while zero surviving
entries everywhere causes no panic and the run returns `.ok`. -/
theorem invalid_pattern_panics (cfg : config) (locate : String → Option location)
    (dae : List datedAuthEntries) (hl : cfg.locale ≠ "") :
    ((∃ b ∈ dae, (filterBucketPre cfg b).Entries ≠ []) →
      applyEntryFilters cfg locate none dae = .error ()) ∧
    ((∀ b ∈ dae, (filterBucketPre cfg b).Entries = []) →
      ∃ r, applyEntryFilters cfg locate none dae = .ok r) :=
  ⟨applyEntryFilters_invalid_error cfg locate hl dae,
   applyEntryFilters_invalid_ok cfg locate hl dae⟩

/-- Witness for C10: with locale "loc" and an invalid pattern, a store
with one surviving entry panics; the same configuration over an
all-empty store does not. -/
theorem invalid_pattern_panics_witness :
    applyEntryFilters ⟨0, "", "", "loc", ""⟩ (fun _ => none) none
      [⟨"Jan 1", [newAuthEntry "10.0.0.1" "root"]⟩] = .error () ∧
    ∃ r, applyEntryFilters ⟨0, "", "", "loc", ""⟩ (fun _ => none) none
      ([⟨"Jan 1", []⟩] : List datedAuthEntries) = .ok r := by
  have h1 := invalid_pattern_panics ⟨0, "", "", "loc", ""⟩ (fun _ => none)
    [⟨"Jan 1", [newAuthEntry "10.0.0.1" "root"]⟩] (by decide)
  have h2 := invalid_pattern_panics ⟨0, "", "", "loc", ""⟩ (fun _ => none)
    [⟨"Jan 1", []⟩] (by decide)
  exact ⟨h1.1 ⟨⟨"Jan 1", [newAuthEntry "10.0.0.1" "root"]⟩,
    List.mem_singleton_self _, by decide⟩, h2.2 (by decide)⟩

/- ### Claim C9: text renderer — headers always, entries by threshold -/

theorem flatten_map_ite {α : Type} (p : authEntry → Prop) [DecidablePred p]
    (f : authEntry → List α) (es : List authEntry) :
    (es.map (fun ae => if p ae then f ae else [])).flatten
      = ((es.filter (fun ae => decide (p ae))).map f).flatten := by
  induction es with
  | nil => rfl
  | cons ae rest ih => by_cases h : p ae <;> simp [h, ih]

/-- C9: in text mode the renderer prints, for each bucket in store
order, the date header and then exactly those entries whose `Count` is
at least the threshold (each as IP, composed location string, count and
comma-joined usernames); an entry below the threshold is suppressed at
render time, and the header (with the trailing blank line) prints even
for a bucket with no printed entries. -/
theorem print_renders_threshold (threshold : Int) (store : List datedAuthEntries) :
    print threshold store = (store.map (fun dae =>
      outLine.dateHeader dae.Date ::
        (((dae.Entries.filter (countPred threshold)).map (fun ae =>
            [outLine.ipLine ae.IP, outLine.locationLine ae.composeLocationString,
             outLine.attemptsLine ae.Count,
             outLine.usernamesLine (String.intercalate ", " ae.Users)])).flatten
          ++ [outLine.blank]))).flatten := by
  unfold print printBucket
  congr 1
  apply List.map_congr_left
  intro dae _
  congr 2
  exact flatten_map_ite (fun ae => ae.Count ≥ threshold)
    (fun ae => [outLine.ipLine ae.IP, outLine.locationLine ae.composeLocationString,
      outLine.attemptsLine ae.Count,
      outLine.usernamesLine (String.intercalate ", " ae.Users)]) dae.Entries

end Shar
